import Mathlib

/-!
Verification of the texar-pytorch vocabulary module
(`src/texar/data/vocabulary.py`).

The development shallowly embeds the `Vocab` class: Python `defaultdict`s
become association lists paired with a default value (insertion replaces
the value of an existing key in place, otherwise appends, mirroring
`dict.__setitem__`), `np.arange` becomes a list of `Int`s, construction
failure (`ValueError`) becomes `Except`, and the shape-polymorphic
`dict_lookup` helper (whose source lives outside the reviewed files)
is modelled from the specification as a recursive map over arbitrarily
nested lists.
-/

namespace TexarVocab

/-- One `dict_[k] = v` assignment on a Python dict represented as an
association list: replace the value of an existing key in place,
otherwise append the new pair at the end. -/
def dictInsert {α β : Type} [DecidableEq α] :
    List (α × β) → α → β → List (α × β)
  | [], k, v => [(k, v)]
  | p :: rest, k, v =>
      if p.1 = k then (k, v) :: rest else p :: dictInsert rest k v

/-- The dict built by the `for k, v in zip(keys, values): dict_[k] = v`
loop of `_make_defaultdict`. -/
def dictOfZip {α β : Type} [DecidableEq α]
    (keys : List α) (values : List β) : List (α × β) :=
  (keys.zip values).foldl (fun d p => dictInsert d p.1 p.2) []

/-- Python dict lookup with an explicit fallback (`dict_.get(k, default)`,
and also `defaultdict.__getitem__` once the stored default is passed). -/
def dictGet {α β : Type} [DecidableEq α] :
    List (α × β) → α → β → β
  | [], _, d => d
  | p :: rest, k, d => if p.1 = k then p.2 else dictGet rest k d

/-- A Python `defaultdict`: an ordinary finite map together with the
default value returned for missing keys. -/
structure Defaultdict (α β : Type) where
  entries : List (α × β)
  default : β
deriving Repr, DecidableEq

/-- Function `_make_defaultdict(keys, values, default_value)` from
`vocabulary.py`. -/
def makeDefaultdict {α β : Type} [DecidableEq α]
    (keys : List α) (values : List β) (default_value : β) :
    Defaultdict α β :=
  ⟨dictOfZip keys values, default_value⟩

/-- Subscript lookup `d[k]` on a defaultdict, falling back to the
stored default value. -/
def Defaultdict.getitem {α β : Type} [DecidableEq α]
    (d : Defaultdict α β) (k : α) : β :=
  dictGet d.entries k d.default

/-- Lookup `d.get(k, fallback)` with an explicitly supplied fallback
(the defaultdict's own default is bypassed). -/
def Defaultdict.getD {α β : Type} [DecidableEq α]
    (d : Defaultdict α β) (k : α) (fallback : β) : β :=
  dictGet d.entries k fallback

/-- Python `len(d)`: the number of (distinct) keys. -/
def Defaultdict.len {α β : Type} (d : Defaultdict α β) : Nat :=
  d.entries.length

/-- NumPy `np.arange(n)` as a list of integers `[0, 1, ..., n-1]`. -/
def arange (n : Nat) : List Int :=
  (List.range n).map Int.ofNat

/-- The default special-token strings of class `SpecialTokens`. -/
def SpecialTokens.PAD : String := "<PAD>"

/-- Default `SpecialTokens.BOS`. -/
def SpecialTokens.BOS : String := "<BOS>"

/-- Default `SpecialTokens.EOS`. -/
def SpecialTokens.EOS : String := "<EOS>"

/-- Default `SpecialTokens.UNK`. -/
def SpecialTokens.UNK : String := "<UNK>"

/-- The four `ValueError`s raised by `Vocab.load` when a special token
already occurs among the source lines; each carries the colliding
token string (it is interpolated into the Python error message). -/
inductive VocabError where
  | duplicateBos (tok : String)
  | duplicateEos (tok : String)
  | duplicateUnk (tok : String)
  | duplicatePad (tok : String)
deriving DecidableEq, Repr

/-- The special-token string named by a construction error. -/
def VocabError.token : VocabError → String
  | .duplicateBos t => t
  | .duplicateEos t => t
  | .duplicateUnk t => t
  | .duplicatePad t => t

/-- The `Vocab` instance after `__init__` has run: the configured
special-token strings together with the two maps built by `load`. -/
structure Vocab where
  pad_token : String
  bos_token : String
  eos_token : String
  unk_token : String
  id_to_token_map_py : Defaultdict Int String
  token_to_id_map_py : Defaultdict String Int
deriving Repr, DecidableEq

/-- Method `Vocab.load`, after the external file reader has produced the
stripped lines: check the four special tokens against the listing
(in the source's order bos, eos, unk, pad), prepend
`[pad, bos, eos, unk]`, and build the two defaultdict maps. -/
def Vocab.load (pad_token bos_token eos_token unk_token : String)
    (source_lines : List String) :
    Except VocabError (Defaultdict Int String × Defaultdict String Int) :=
  if bos_token ∈ source_lines then
    .error (.duplicateBos bos_token)
  else if eos_token ∈ source_lines then
    .error (.duplicateEos eos_token)
  else if unk_token ∈ source_lines then
    .error (.duplicateUnk unk_token)
  else if pad_token ∈ source_lines then
    .error (.duplicatePad pad_token)
  else
    let vocab := [pad_token, bos_token, eos_token, unk_token]
        ++ source_lines
    let unk_token_idx : Int := 3
    let vocab_size := vocab.length
    let vocab_idx := arange vocab_size
    let id_to_token_map_py := makeDefaultdict vocab_idx vocab unk_token
    let token_to_id_map_py := makeDefaultdict vocab vocab_idx unk_token_idx
    .ok (id_to_token_map_py, token_to_id_map_py)

/-- Constructor `Vocab.__init__`: store the four special tokens and the two maps
returned by `load`; a `load` failure propagates and no instance is
produced. -/
def Vocab.make (source_lines : List String)
    (pad_token : String := SpecialTokens.PAD)
    (bos_token : String := SpecialTokens.BOS)
    (eos_token : String := SpecialTokens.EOS)
    (unk_token : String := SpecialTokens.UNK) :
    Except VocabError Vocab := do
  let maps ← Vocab.load pad_token bos_token eos_token unk_token source_lines
  return { pad_token, bos_token, eos_token, unk_token,
           id_to_token_map_py := maps.1, token_to_id_map_py := maps.2 }

/-- Property `Vocab.size`: `len(self.token_to_id_map_py)`. -/
def Vocab.size (v : Vocab) : Nat :=
  v.token_to_id_map_py.len

/-- Property `Vocab.bos_token_id`: `self.token_to_id_map_py[self._bos_token]`. -/
def Vocab.bos_token_id (v : Vocab) : Int :=
  v.token_to_id_map_py.getitem v.bos_token

/-- Property `Vocab.eos_token_id`. -/
def Vocab.eos_token_id (v : Vocab) : Int :=
  v.token_to_id_map_py.getitem v.eos_token

/-- Property `Vocab.unk_token_id`. -/
def Vocab.unk_token_id (v : Vocab) : Int :=
  v.token_to_id_map_py.getitem v.unk_token

/-- Property `Vocab.pad_token_id`. -/
def Vocab.pad_token_id (v : Vocab) : Int :=
  v.token_to_id_map_py.getitem v.pad_token

/-- Property `Vocab.special_tokens`:
`[pad_token, bos_token, eos_token, unk_token]`. -/
def Vocab.special_tokens (v : Vocab) : List String :=
  [v.pad_token, v.bos_token, v.eos_token, v.unk_token]

/-- An arbitrarily nested list of values: a scalar leaf or a list of
nested values, as accepted by `map_tokens_to_ids_py` /
`map_ids_to_tokens_py`. -/
inductive Nested (α : Type) where
  | leaf : α → Nested α
  | node : List (Nested α) → Nested α

/-- Modelled from the spec: the helper `dict_lookup(dict_, keys, default)`
of `texar.utils.utils` is imported by `vocabulary.py` but its source is
not among the reviewed files.  Per the spec it replaces every leaf of an
arbitrarily nested input by its mapped value, preserving the nesting
shape exactly, and replaces leaves missing from the map by the supplied
default, never raising. -/
def dict_lookup {α β : Type} [DecidableEq α]
    (dict_ : Defaultdict α β) (keys : Nested α) (default : β) : Nested β :=
  match keys with
  | .leaf a => .leaf (dict_.getD a default)
  | .node xs => .node (xs.attach.map
      (fun x => dict_lookup dict_ x.1 default))
decreasing_by
  have := List.sizeOf_lt_of_mem x.2
  simp only [Nested.node.sizeOf_spec]
  omega

/-- Method `Vocab.map_ids_to_tokens_py(ids)`:
`dict_lookup(self.id_to_token_map_py, ids, self.unk_token)`. -/
def Vocab.map_ids_to_tokens_py (v : Vocab) (ids : Nested Int) :
    Nested String :=
  dict_lookup v.id_to_token_map_py ids v.unk_token

/-- Method `Vocab.map_tokens_to_ids_py(tokens)`:
`dict_lookup(self.token_to_id_map_py, tokens, self.unk_token_id)`. -/
def Vocab.map_tokens_to_ids_py (v : Vocab) (tokens : Nested String) :
    Nested Int :=
  dict_lookup v.token_to_id_map_py tokens v.unk_token_id

/-- The nesting shape of a nested value, forgetting the leaves. -/
def Nested.shape {α : Type} : Nested α → Nested Unit
  | .leaf _ => .leaf ()
  | .node xs => .node (xs.attach.map (fun x => Nested.shape x.1))
decreasing_by
  have := List.sizeOf_lt_of_mem x.2
  simp only [Nested.node.sizeOf_spec]
  omega

/-- The value paired with the last occurrence of key `k` in `l`. -/
def lastFind? {α β : Type} [DecidableEq α] : List (α × β) → α → Option β
  | [], _ => none
  | p :: rest, k =>
      match lastFind? rest k with
      | some v => some v
      | none => if p.1 = k then some p.2 else none
/-- Integer range `[start, start+1, ..., start+n-1]`: a cons-structured
view of `arange` that is convenient for induction. -/
def rangeInts (start : Int) : Nat → List Int
  | 0 => []
  | n + 1 => start :: rangeInts (start + 1) n
/-- The `Vocab` value produced by a successful construction (the body of
`Vocab.load` after the four membership checks have passed). -/
def builtVocab (src : List String) (pad bos eos unk : String) : Vocab :=
  { pad_token := pad, bos_token := bos, eos_token := eos, unk_token := unk,
    id_to_token_map_py :=
      makeDefaultdict (arange ([pad, bos, eos, unk] ++ src).length)
        ([pad, bos, eos, unk] ++ src) unk,
    token_to_id_map_py :=
      makeDefaultdict ([pad, bos, eos, unk] ++ src)
        (arange ([pad, bos, eos, unk] ++ src).length) 3 }

/-! ### Dictionary lemmas

`dictOfZip` is a left fold of in-place-or-append insertions, so a lookup
in the finished dict returns the value paired with the *last* occurrence
of the key in the zipped input (Python dict semantics: last write wins).
`lastFind?` expresses that reading directly off the input list. -/


theorem dictGet_dictInsert {α β : Type} [DecidableEq α]
    (d : List (α × β)) (k k' : α) (v : β) (dflt : β) :
    dictGet (dictInsert d k v) k' dflt =
      if k' = k then v else dictGet d k' dflt := by
  induction d with
  | nil =>
      simp only [dictInsert, dictGet]
      by_cases h : k' = k
      · simp [h]
      · have h2 : ¬ k = k' := fun hh => h hh.symm
        simp [h, h2]
  | cons p rest ih =>
      by_cases hpk : p.1 = k
      · subst hpk
        simp only [dictInsert, if_pos rfl, dictGet]
        by_cases h : k' = p.1
        · simp [h]
        · have h2 : ¬ p.1 = k' := fun hh => h hh.symm
          simp [h, h2, dictGet]
      · simp only [dictInsert, if_neg hpk, dictGet]
        by_cases h : p.1 = k'
        · have h2 : ¬ k' = k := fun hh => hpk (h.trans hh)
          simp [h, h2, dictGet]
        · simp [h, ih, dictGet]

theorem dictGet_foldl {α β : Type} [DecidableEq α]
    (l : List (α × β)) (d0 : List (α × β)) (k : α) (dflt : β) :
    dictGet (l.foldl (fun d p => dictInsert d p.1 p.2) d0) k dflt =
      match lastFind? l k with
      | some v => v
      | none => dictGet d0 k dflt := by
  induction l generalizing d0 with
  | nil => simp [lastFind?]
  | cons p rest ih =>
      rw [List.foldl_cons, ih]
      cases h : lastFind? rest k with
      | some v => simp [lastFind?, h]
      | none =>
          simp only [lastFind?, h, dictGet_dictInsert]
          by_cases hk : k = p.1
          · simp [hk]
          · have hk2 : ¬ p.1 = k := fun hh => hk hh.symm
            simp [hk, hk2]

theorem dictGet_dictOfZip {α β : Type} [DecidableEq α]
    (ks : List α) (vs : List β) (k : α) (dflt : β) :
    dictGet (dictOfZip ks vs) k dflt =
      match lastFind? (ks.zip vs) k with
      | some v => v
      | none => dflt := by
  unfold dictOfZip
  rw [dictGet_foldl]
  cases lastFind? (ks.zip vs) k <;> simp [dictGet]

theorem lastFind?_eq_none_of_not_mem {α β : Type} [DecidableEq α]
    (ks : List α) (vs : List β) (k : α) (h : k ∉ ks) :
    lastFind? (ks.zip vs) k = none := by
  induction ks generalizing vs with
  | nil => simp [lastFind?]
  | cons a ks ih =>
      cases vs with
      | nil => simp [lastFind?]
      | cons b vs =>
          have hka : ¬ a = k := fun hh => h (hh ▸ List.mem_cons_self a ks)
          have hks : k ∉ ks := fun hh => h (List.mem_cons_of_mem a hh)
          have ih2 : lastFind? (List.zipWith Prod.mk ks vs) k = none :=
            ih vs hks
          simp [lastFind?, hka, ih2]


theorem map_ofNat_range' (s n : Nat) :
    (List.range' s n).map Int.ofNat = rangeInts (Int.ofNat s) n := by
  induction n generalizing s with
  | zero => simp [rangeInts]
  | succ n ih =>
      rw [List.range'_succ, List.map_cons, ih (s + 1)]
      have h : Int.ofNat (s + 1) = Int.ofNat s + 1 := by
        simp only [Int.ofNat_eq_natCast]
        push_cast
        ring
      rw [h, rangeInts]

theorem arange_eq_rangeInts (n : Nat) : arange n = rangeInts 0 n := by
  have h := map_ofNat_range' 0 n
  rw [arange, List.range_eq_range']
  simpa using h

theorem mem_rangeInts (k start : Int) (n : Nat) :
    k ∈ rangeInts start n ↔ start ≤ k ∧ k < start + n := by
  induction n generalizing start with
  | zero =>
      simp only [rangeInts, List.not_mem_nil, false_iff]
      omega
  | succ n ih =>
      simp only [rangeInts, List.mem_cons, ih (start + 1)]
      omega

/-- Looking up an in-range index in the zipped `arange`/sequence list
finds the sequence element at that index. -/
theorem lastFind?_rangeInts_zip {β : Type} (vs : List β) (start : Int)
    (i : Nat) (hi : i < vs.length) :
    lastFind? ((rangeInts start vs.length).zip vs) (start + i) =
      some vs[i] := by
  induction vs generalizing start i with
  | nil => simp at hi
  | cons b vs ih =>
      cases i with
      | zero =>
          have hnot : start + ((0 : Nat) : Int) ∉
              rangeInts (start + 1) vs.length := by
            rw [mem_rangeInts]
            omega
          have hnone : lastFind?
              (List.zipWith Prod.mk (rangeInts (start + 1) vs.length) vs)
              (start + ((0 : Nat) : Int)) = none :=
            lastFind?_eq_none_of_not_mem _ _ _ hnot
          simp only [List.length_cons, rangeInts, List.zip_cons_cons,
            lastFind?]
          rw [hnone]
          simp
      | succ i =>
          have hi2 : i < vs.length := by simpa using hi
          have ih2 : lastFind?
              (List.zipWith Prod.mk (rangeInts (start + 1) vs.length) vs)
              ((start + 1) + (i : Int)) = some vs[i] :=
            ih (start + 1) i hi2
          have hkey : start + ((i + 1 : Nat) : Int) = (start + 1) + i := by
            push_cast
            ring
          simp only [List.length_cons, rangeInts, List.zip_cons_cons,
            lastFind?, List.getElem_cons_succ]
          rw [hkey, ih2]

/-- Last-write-wins: looking up the element at a position `i` that is the
last occurrence of its value finds the index `start + i`. -/
theorem lastFind?_zip_rangeInts {α : Type} [DecidableEq α] (ks : List α)
    (start : Int) (i : Nat) (hi : i < ks.length)
    (hlast : ∀ j, (hj : j < ks.length) → i < j → ks[j] ≠ ks[i]) :
    lastFind? (ks.zip (rangeInts start ks.length)) ks[i] =
      some (start + i) := by
  induction ks generalizing start i with
  | nil => simp at hi
  | cons a ks ih =>
      cases i with
      | zero =>
          have hnot : a ∉ ks := by
            intro hmem
            obtain ⟨j, hj, hja⟩ := List.getElem_of_mem hmem
            exact hlast (j + 1) (by simpa using Nat.succ_lt_succ hj)
              (Nat.succ_pos j) (by simp [hja])
          have hnone : lastFind?
              (List.zipWith Prod.mk ks (rangeInts (start + 1) ks.length))
              a = none :=
            lastFind?_eq_none_of_not_mem ks
              (rangeInts (start + 1) ks.length) a hnot
          simp only [List.length_cons, rangeInts, List.zip_cons_cons,
            lastFind?, List.getElem_cons_zero]
          rw [hnone]
          simp
      | succ i =>
          have hi2 : i < ks.length := by simpa using hi
          have hlast2 : ∀ j, (hj : j < ks.length) → i < j →
              ks[j] ≠ ks[i] := by
            intro j hj hij
            have h := hlast (j + 1) (by simpa using Nat.succ_lt_succ hj)
              (by omega)
            simpa using h
          have ih2 : lastFind?
              (List.zipWith Prod.mk ks (rangeInts (start + 1) ks.length))
              ks[i] = some ((start + 1) + i) :=
            ih (start + 1) i hi2 hlast2
          simp only [List.length_cons, rangeInts, List.zip_cons_cons,
            lastFind?, List.getElem_cons_succ]
          rw [ih2]
          push_cast
          ring_nf

/-! ### Keys of a built dict: distinctness and size -/

theorem keysOf_dictInsert {α β : Type} [DecidableEq α]
    (d : List (α × β)) (k : α) (v : β) :
    (dictInsert d k v).map Prod.fst =
      if k ∈ d.map Prod.fst then d.map Prod.fst
      else d.map Prod.fst ++ [k] := by
  induction d with
  | nil => simp [dictInsert]
  | cons p rest ih =>
      by_cases hpk : p.1 = k
      · simp [dictInsert, hpk]
      · have hk2 : ¬ k = p.1 := fun hh => hpk hh.symm
        by_cases hk : k ∈ rest.map Prod.fst <;>
          simp [dictInsert, hpk, ih, hk, hk2]

theorem keysOf_foldl_nodup {α β : Type} [DecidableEq α]
    (l : List (α × β)) (d0 : List (α × β))
    (h : (d0.map Prod.fst).Nodup) :
    ((l.foldl (fun d p => dictInsert d p.1 p.2) d0).map Prod.fst).Nodup := by
  induction l generalizing d0 with
  | nil => exact h
  | cons p rest ih =>
      rw [List.foldl_cons]
      apply ih
      rw [keysOf_dictInsert]
      by_cases hk : p.1 ∈ d0.map Prod.fst
      · simpa [hk] using h
      · simp only [hk, if_false, List.nodup_append, List.nodup_cons]
        refine ⟨h, by simp, ?_⟩
        intro x hx
        simp only [List.mem_singleton]
        intro hxx
        exact hk (hxx ▸ hx)

theorem keysOf_foldl_toFinset {α β : Type} [DecidableEq α]
    (l : List (α × β)) (d0 : List (α × β)) :
    ((l.foldl (fun d p => dictInsert d p.1 p.2) d0).map
        Prod.fst).toFinset =
      (d0.map Prod.fst).toFinset ∪ (l.map Prod.fst).toFinset := by
  induction l generalizing d0 with
  | nil => simp
  | cons p rest ih =>
      rw [List.foldl_cons, ih, keysOf_dictInsert]
      by_cases hk : p.1 ∈ d0.map Prod.fst
      · simp only [hk, if_true, List.map_cons, List.toFinset_cons]
        ext x
        simp only [Finset.mem_union, List.mem_toFinset, Finset.mem_insert]
        constructor
        · tauto
        · rintro (hx | (rfl | hx))
          · exact Or.inl hx
          · exact Or.inl hk
          · exact Or.inr hx
      · simp only [hk, if_false, List.map_cons, List.toFinset_cons,
          List.toFinset_append]
        ext x
        simp only [Finset.mem_union, List.mem_toFinset, Finset.mem_insert,
          List.toFinset_cons, List.mem_singleton]
        tauto

/-- The number of entries of a dict built from equal-length key/value
lists is the number of distinct keys. -/
theorem dictOfZip_length {α β : Type} [DecidableEq α]
    (ks : List α) (vs : List β) (hlen : ks.length = vs.length) :
    (dictOfZip ks vs).length = ks.dedup.length := by
  have h1 : ((dictOfZip ks vs).map Prod.fst).Nodup :=
    keysOf_foldl_nodup _ [] (by simp)
  have h2 : ((dictOfZip ks vs).map Prod.fst).toFinset =
      ((ks.zip vs).map Prod.fst).toFinset := by
    have h := keysOf_foldl_toFinset (ks.zip vs) []
    simpa [dictOfZip] using h
  have h3 : (ks.zip vs).map Prod.fst = ks :=
    List.map_fst_zip ks vs (le_of_eq hlen)
  calc (dictOfZip ks vs).length
      = ((dictOfZip ks vs).map Prod.fst).length := by
        rw [List.length_map]
    _ = ((dictOfZip ks vs).map Prod.fst).toFinset.card :=
        (List.toFinset_card_of_nodup h1).symm
    _ = ks.toFinset.card := by rw [h2, h3]
    _ = ks.dedup.length := List.card_toFinset ks

/-! ### Successful construction -/


theorem Vocab.make_ok_iff (src : List String) (pad bos eos unk : String)
    (v : Vocab) :
    Vocab.make src pad bos eos unk = .ok v ↔
      (bos ∉ src ∧ eos ∉ src ∧ unk ∉ src ∧ pad ∉ src) ∧
      v = builtVocab src pad bos eos unk := by
  constructor
  · intro h
    by_cases hb : bos ∈ src
    · simp [Vocab.make, Vocab.load, hb, Except.bind] at h
    by_cases he : eos ∈ src
    · simp [Vocab.make, Vocab.load, hb, he, Except.bind] at h
    by_cases hu : unk ∈ src
    · simp [Vocab.make, Vocab.load, hb, he, hu, Except.bind] at h
    by_cases hp : pad ∈ src
    · simp [Vocab.make, Vocab.load, hb, he, hu, hp, Except.bind] at h
    refine ⟨⟨hb, he, hu, hp⟩, ?_⟩
    simp [Vocab.make, Vocab.load, hb, he, hu, hp, Except.bind,
      builtVocab] at h ⊢
    exact h.symm
  · rintro ⟨⟨hb, he, hu, hp⟩, rfl⟩
    simp [Vocab.make, Vocab.load, hb, he, hu, hp, Except.bind, builtVocab]

/-! ### Lookups in the two built maps -/

theorem idMap_dictGet_hit (seq : List String) (flb : String) (i : Nat)
    (hi : i < seq.length) :
    dictGet (dictOfZip (arange seq.length) seq) ((i : Nat) : Int) flb =
      seq[i] := by
  rw [dictGet_dictOfZip, arange_eq_rangeInts]
  have h := lastFind?_rangeInts_zip seq 0 i hi
  rw [zero_add] at h
  rw [h]

theorem idMap_dictGet_miss (seq : List String) (flb : String) (i : Int)
    (h : i < 0 ∨ (seq.length : Int) ≤ i) :
    dictGet (dictOfZip (arange seq.length) seq) i flb = flb := by
  rw [dictGet_dictOfZip, arange_eq_rangeInts]
  have hnm : i ∉ rangeInts 0 seq.length := by
    rw [mem_rangeInts]
    omega
  rw [lastFind?_eq_none_of_not_mem _ _ _ hnm]

theorem tokenMap_dictGet_last (seq : List String) (flb : Int) (i : Nat)
    (hi : i < seq.length)
    (hlast : ∀ j, (hj : j < seq.length) → i < j → seq[j] ≠ seq[i]) :
    dictGet (dictOfZip seq (arange seq.length)) seq[i] flb = (i : Int) := by
  rw [dictGet_dictOfZip, arange_eq_rangeInts]
  have h := lastFind?_zip_rangeInts seq 0 i hi hlast
  rw [zero_add] at h
  rw [h]

theorem tokenMap_dictGet_miss (seq : List String) (flb : Int) (t : String)
    (ht : t ∉ seq) :
    dictGet (dictOfZip seq (arange seq.length)) t flb = flb := by
  rw [dictGet_dictOfZip]
  rw [lastFind?_eq_none_of_not_mem _ _ _ ht]

/-! ### The prepended sequence -/

theorem seq_length (pad bos eos unk : String) (src : List String) :
    ([pad, bos, eos, unk] ++ src).length = 4 + src.length := by
  simp only [List.length_append, List.length_cons, List.length_nil]

theorem seq_get_ge_four (pad bos eos unk : String) (src : List String)
    (j : Nat) (h4 : 4 ≤ j) (hj : j < ([pad, bos, eos, unk] ++ src).length) :
    ([pad, bos, eos, unk] ++ src)[j] ∈ src := by
  rw [List.getElem_append_right (by simpa using h4)]
  exact List.getElem_mem _

/-! ### Equation lemmas for the nested lookup -/

theorem dict_lookup_leaf {α β : Type} [DecidableEq α]
    (d : Defaultdict α β) (a : α) (dflt : β) :
    dict_lookup d (.leaf a) dflt = .leaf (d.getD a dflt) := by
  simp only [dict_lookup]

theorem dict_lookup_node {α β : Type} [DecidableEq α]
    (d : Defaultdict α β) (xs : List (Nested α)) (dflt : β) :
    dict_lookup d (.node xs) dflt =
      .node (xs.map (fun x => dict_lookup d x dflt)) := by
  rw [dict_lookup]
  rw [List.attach_map_coe xs (fun x => dict_lookup d x dflt)]

theorem shape_leaf {α : Type} (a : α) :
    (Nested.leaf a).shape = .leaf () := by
  simp only [Nested.shape]

theorem shape_node {α : Type} (xs : List (Nested α)) :
    (Nested.node xs).shape = .node (xs.map (fun x => x.shape)) := by
  rw [Nested.shape]
  rw [List.attach_map_coe xs (fun x => x.shape)]

/-- Shape preservation: `dict_lookup` keeps the nesting shape of its
input exactly. -/
theorem shape_dict_lookup {α β : Type} [DecidableEq α]
    (d : Defaultdict α β) (dflt : β) :
    ∀ x : Nested α, (dict_lookup d x dflt).shape = x.shape
  | .leaf a => by rw [dict_lookup_leaf, shape_leaf, shape_leaf]
  | .node xs => by
      rw [dict_lookup_node, shape_node, shape_node, List.map_map]
      congr 1
      apply List.map_congr_left
      intro x hx
      exact shape_dict_lookup d dflt x
decreasing_by
  have := List.sizeOf_lt_of_mem hx
  simp only [Nested.node.sizeOf_spec]
  omega

/-! ### Special-token ids in a successfully built table -/

theorem builtVocab_token_getitem_last (src : List String)
    (pad bos eos unk : String) (i : Nat)
    (hi : i < ([pad, bos, eos, unk] ++ src).length)
    (hlast : ∀ j, (hj : j < ([pad, bos, eos, unk] ++ src).length) →
      i < j →
      ([pad, bos, eos, unk] ++ src)[j] ≠ ([pad, bos, eos, unk] ++ src)[i]) :
    (builtVocab src pad bos eos unk).token_to_id_map_py.getitem
      ([pad, bos, eos, unk] ++ src)[i] = (i : Int) :=
  tokenMap_dictGet_last _ _ i hi hlast

theorem builtVocab_unk_id (src : List String) (pad bos eos unk : String)
    (hu : unk ∉ src) :
    (builtVocab src pad bos eos unk).unk_token_id = 3 := by
  have hlen := seq_length pad bos eos unk src
  have hi : 3 < ([pad, bos, eos, unk] ++ src).length := by omega
  have hlast : ∀ j, (hj : j < ([pad, bos, eos, unk] ++ src).length) →
      3 < j →
      ([pad, bos, eos, unk] ++ src)[j] ≠ ([pad, bos, eos, unk] ++ src)[3] := by
    intro j hj h3
    have hmem : ([pad, bos, eos, unk] ++ src)[j] ∈ src :=
      seq_get_ge_four pad bos eos unk src j (by omega) hj
    intro hc
    have e : ([pad, bos, eos, unk] ++ src)[3] = unk := rfl
    rw [e] at hc
    exact hu (hc ▸ hmem)
  have h := builtVocab_token_getitem_last src pad bos eos unk 3 hi hlast
  have h2 : (builtVocab src pad bos eos unk).token_to_id_map_py.getitem
      ([pad, bos, eos, unk] ++ src)[3] = (3 : Int) := by exact_mod_cast h
  exact h2

theorem builtVocab_pad_id (src : List String) (pad bos eos unk : String)
    (hpb : pad ≠ bos) (hpe : pad ≠ eos) (hpu : pad ≠ unk)
    (hp : pad ∉ src) :
    (builtVocab src pad bos eos unk).pad_token_id = 0 := by
  have hlen := seq_length pad bos eos unk src
  have hi : 0 < ([pad, bos, eos, unk] ++ src).length := by omega
  have hlast : ∀ j, (hj : j < ([pad, bos, eos, unk] ++ src).length) →
      0 < j →
      ([pad, bos, eos, unk] ++ src)[j] ≠ ([pad, bos, eos, unk] ++ src)[0] := by
    intro j hj h0
    by_cases h4 : 4 ≤ j
    · have hmem : ([pad, bos, eos, unk] ++ src)[j] ∈ src :=
        seq_get_ge_four pad bos eos unk src j h4 hj
      intro hc
      have e : ([pad, bos, eos, unk] ++ src)[0] = pad := rfl
      rw [e] at hc
      exact hp (hc ▸ hmem)
    · have hj4 : j < 4 := by omega
      interval_cases j
      · exact fun hc => hpb hc.symm
      · exact fun hc => hpe hc.symm
      · exact fun hc => hpu hc.symm
  have h := builtVocab_token_getitem_last src pad bos eos unk 0 hi hlast
  have h2 : (builtVocab src pad bos eos unk).token_to_id_map_py.getitem
      ([pad, bos, eos, unk] ++ src)[0] = (0 : Int) := by exact_mod_cast h
  exact h2

theorem builtVocab_bos_id (src : List String) (pad bos eos unk : String)
    (hbe : bos ≠ eos) (hbu : bos ≠ unk) (hb : bos ∉ src) :
    (builtVocab src pad bos eos unk).bos_token_id = 1 := by
  have hlen := seq_length pad bos eos unk src
  have hi : 1 < ([pad, bos, eos, unk] ++ src).length := by omega
  have hlast : ∀ j, (hj : j < ([pad, bos, eos, unk] ++ src).length) →
      1 < j →
      ([pad, bos, eos, unk] ++ src)[j] ≠ ([pad, bos, eos, unk] ++ src)[1] := by
    intro j hj h1
    by_cases h4 : 4 ≤ j
    · have hmem : ([pad, bos, eos, unk] ++ src)[j] ∈ src :=
        seq_get_ge_four pad bos eos unk src j h4 hj
      intro hc
      have e : ([pad, bos, eos, unk] ++ src)[1] = bos := rfl
      rw [e] at hc
      exact hb (hc ▸ hmem)
    · have hj4 : j < 4 := by omega
      interval_cases j
      · exact fun hc => hbe hc.symm
      · exact fun hc => hbu hc.symm
  have h := builtVocab_token_getitem_last src pad bos eos unk 1 hi hlast
  have h2 : (builtVocab src pad bos eos unk).token_to_id_map_py.getitem
      ([pad, bos, eos, unk] ++ src)[1] = (1 : Int) := by exact_mod_cast h
  exact h2

theorem builtVocab_eos_id (src : List String) (pad bos eos unk : String)
    (heu : eos ≠ unk) (he : eos ∉ src) :
    (builtVocab src pad bos eos unk).eos_token_id = 2 := by
  have hlen := seq_length pad bos eos unk src
  have hi : 2 < ([pad, bos, eos, unk] ++ src).length := by omega
  have hlast : ∀ j, (hj : j < ([pad, bos, eos, unk] ++ src).length) →
      2 < j →
      ([pad, bos, eos, unk] ++ src)[j] ≠ ([pad, bos, eos, unk] ++ src)[2] := by
    intro j hj h2
    by_cases h4 : 4 ≤ j
    · have hmem : ([pad, bos, eos, unk] ++ src)[j] ∈ src :=
        seq_get_ge_four pad bos eos unk src j h4 hj
      intro hc
      have e : ([pad, bos, eos, unk] ++ src)[2] = eos := rfl
      rw [e] at hc
      exact he (hc ▸ hmem)
    · have hj4 : j < 4 := by omega
      interval_cases j
      · exact fun hc => heu hc.symm
  have h := builtVocab_token_getitem_last src pad bos eos unk 2 hi hlast
  have h2 : (builtVocab src pad bos eos unk).token_to_id_map_py.getitem
      ([pad, bos, eos, unk] ++ src)[2] = (2 : Int) := by exact_mod_cast h
  exact h2

/-! ### Size of a successfully built table -/

theorem builtVocab_size (src : List String) (pad bos eos unk : String) :
    (builtVocab src pad bos eos unk).size =
      ([pad, bos, eos, unk] ++ src).dedup.length := by
  show (dictOfZip ([pad, bos, eos, unk] ++ src)
      (arange ([pad, bos, eos, unk] ++ src).length)).length = _
  apply dictOfZip_length
  simp [arange]

theorem dedup_length_seq (src : List String) (pad bos eos unk : String)
    (hpb : pad ≠ bos) (hpe : pad ≠ eos) (hpu : pad ≠ unk)
    (hbe : bos ≠ eos) (hbu : bos ≠ unk) (heu : eos ≠ unk)
    (hb : bos ∉ src) (he : eos ∉ src) (hu : unk ∉ src) (hp : pad ∉ src) :
    ([pad, bos, eos, unk] ++ src).dedup.length = 4 + src.dedup.length := by
  have hdisj : Disjoint ([pad, bos, eos, unk] : List String).toFinset
      src.toFinset := by
    rw [Finset.disjoint_left]
    intro a ha
    simp only [List.mem_toFinset, List.mem_cons, List.mem_singleton,
      List.not_mem_nil, or_false] at ha ⊢
    rcases ha with rfl | rfl | rfl | rfl <;> assumption
  have hcard4 : ([pad, bos, eos, unk] : List String).toFinset.card = 4 := by
    simp only [List.toFinset_cons, List.toFinset_nil, insert_emptyc_eq]
    rw [Finset.card_insert_of_not_mem (by simp [hpb, hpe, hpu]),
      Finset.card_insert_of_not_mem (by simp [hbe, hbu]),
      Finset.card_insert_of_not_mem (by simp [heu]),
      Finset.card_singleton]
  calc ([pad, bos, eos, unk] ++ src).dedup.length
      = ([pad, bos, eos, unk] ++ src).toFinset.card :=
        (List.card_toFinset _).symm
    _ = (([pad, bos, eos, unk] : List String).toFinset ∪
          src.toFinset).card := by rw [List.toFinset_append]
    _ = ([pad, bos, eos, unk] : List String).toFinset.card +
          src.toFinset.card := Finset.card_union_of_disjoint hdisj
    _ = 4 + src.dedup.length := by rw [hcard4, List.card_toFinset]

/-! ## Claim theorems -/

/-- C1: for every construction that succeeds (the four special-token
strings being pairwise distinct, as the data model requires), the built
table assigns `pad_token_id = 0`, `bos_token_id = 1`, `eos_token_id = 2`
and `unk_token_id = 3`, regardless of the content or size of the source
listing, and the read-only accessors return exactly these values. -/
theorem claim_special_ids_fixed (src : List String)
    (pad bos eos unk : String) (v : Vocab)
    (hpb : pad ≠ bos) (hpe : pad ≠ eos) (hpu : pad ≠ unk)
    (hbe : bos ≠ eos) (hbu : bos ≠ unk) (heu : eos ≠ unk)
    (hmk : Vocab.make src pad bos eos unk = .ok v) :
    v.pad_token_id = 0 ∧ v.bos_token_id = 1 ∧
    v.eos_token_id = 2 ∧ v.unk_token_id = 3 := by
  obtain ⟨⟨hb, he, hu, hp⟩, rfl⟩ :=
    (Vocab.make_ok_iff src pad bos eos unk v).mp hmk
  exact ⟨builtVocab_pad_id src pad bos eos unk hpb hpe hpu hp,
         builtVocab_bos_id src pad bos eos unk hbe hbu hb,
         builtVocab_eos_id src pad bos eos unk heu he,
         builtVocab_unk_id src pad bos eos unk hu⟩

/-- Witness for C1: the default special tokens over the listing
`["cat", "dog"]`. -/
theorem claim_special_ids_fixed_witness :
    (("<PAD>" : String) ≠ "<BOS>" ∧ ("<PAD>" : String) ≠ "<EOS>" ∧
     ("<PAD>" : String) ≠ "<UNK>" ∧ ("<BOS>" : String) ≠ "<EOS>" ∧
     ("<BOS>" : String) ≠ "<UNK>" ∧ ("<EOS>" : String) ≠ "<UNK>") ∧
    ((builtVocab ["cat", "dog"] "<PAD>" "<BOS>" "<EOS>" "<UNK>").pad_token_id
        = 0 ∧
     (builtVocab ["cat", "dog"] "<PAD>" "<BOS>" "<EOS>" "<UNK>").bos_token_id
        = 1 ∧
     (builtVocab ["cat", "dog"] "<PAD>" "<BOS>" "<EOS>" "<UNK>").eos_token_id
        = 2 ∧
     (builtVocab ["cat", "dog"] "<PAD>" "<BOS>" "<EOS>" "<UNK>").unk_token_id
        = 3) :=
  ⟨⟨by decide, by decide, by decide, by decide, by decide, by decide⟩,
   claim_special_ids_fixed ["cat", "dog"] "<PAD>" "<BOS>" "<EOS>" "<UNK>"
     (builtVocab ["cat", "dog"] "<PAD>" "<BOS>" "<EOS>" "<UNK>")
     (by decide) (by decide) (by decide) (by decide) (by decide) (by decide)
     ((Vocab.make_ok_iff ["cat", "dog"] "<PAD>" "<BOS>" "<EOS>" "<UNK>"
        (builtVocab ["cat", "dog"] "<PAD>" "<BOS>" "<EOS>" "<UNK>")).mpr
       ⟨⟨by decide, by decide, by decide, by decide⟩, rfl⟩)⟩

/-- C2: construction prepends `[pad, bos, eos, unk]` to the source
lines and assigns ids `0..N-1` over that sequence in order, the
token→id map being its inverse with last-write-wins on duplicate
strings: the lookup of the token at any position `i` that is the last
occurrence of its string returns exactly `i` (so loaded tokens get ids
starting at 4 in file order). -/
theorem claim_token_to_id_inverse (src : List String)
    (pad bos eos unk : String) (v : Vocab) (i : Nat)
    (hmk : Vocab.make src pad bos eos unk = .ok v)
    (hi : i < ([pad, bos, eos, unk] ++ src).length)
    (hlast : ∀ j, (hj : j < ([pad, bos, eos, unk] ++ src).length) →
      i < j →
      ([pad, bos, eos, unk] ++ src)[j] ≠ ([pad, bos, eos, unk] ++ src)[i]) :
    v.token_to_id_map_py.getitem ([pad, bos, eos, unk] ++ src)[i] =
      (i : Int) := by
  obtain ⟨⟨hb, he, hu, hp⟩, rfl⟩ :=
    (Vocab.make_ok_iff src pad bos eos unk v).mp hmk
  exact builtVocab_token_getitem_last src pad bos eos unk i hi hlast

/-- Witness for C2: `"dog"`, the last entry of the prepended sequence for
the listing `["cat", "dog"]`, receives id 5 = 4 + 1. -/
theorem claim_token_to_id_inverse_witness :
    (5 < (["<PAD>", "<BOS>", "<EOS>", "<UNK>"] ++
        ["cat", "dog"]).length ∧
     (∀ j, (hj : j < (["<PAD>", "<BOS>", "<EOS>", "<UNK>"] ++
          ["cat", "dog"]).length) → 5 < j →
        (["<PAD>", "<BOS>", "<EOS>", "<UNK>"] ++ ["cat", "dog"])[j] ≠
          "dog")) ∧
    (builtVocab ["cat", "dog"] "<PAD>" "<BOS>" "<EOS>"
      "<UNK>").token_to_id_map_py.getitem "dog" = 5 :=
  ⟨⟨by decide, by decide⟩,
   claim_token_to_id_inverse ["cat", "dog"] "<PAD>" "<BOS>" "<EOS>" "<UNK>"
     (builtVocab ["cat", "dog"] "<PAD>" "<BOS>" "<EOS>" "<UNK>") 5
     ((Vocab.make_ok_iff ["cat", "dog"] "<PAD>" "<BOS>" "<EOS>" "<UNK>"
        (builtVocab ["cat", "dog"] "<PAD>" "<BOS>" "<EOS>" "<UNK>")).mpr
       ⟨⟨by decide, by decide, by decide, by decide⟩, rfl⟩)
     (by decide) (by decide)⟩

/-- C3: whenever any of the four special-token strings occurs
verbatim among the source lines, construction returns an error (and
hence no table); the error names the colliding special token. -/
theorem claim_duplicate_special_rejected (src : List String)
    (pad bos eos unk : String)
    (h : pad ∈ src ∨ bos ∈ src ∨ eos ∈ src ∨ unk ∈ src) :
    ∃ e : VocabError, Vocab.make src pad bos eos unk = .error e ∧
      e.token ∈ src ∧ e.token ∈ [pad, bos, eos, unk] := by
  by_cases hb : bos ∈ src
  · refine ⟨.duplicateBos bos, ?_, hb, by simp [VocabError.token]⟩
    simp [Vocab.make, Vocab.load, hb, Except.bind]
  by_cases he : eos ∈ src
  · refine ⟨.duplicateEos eos, ?_, he, by simp [VocabError.token]⟩
    simp [Vocab.make, Vocab.load, hb, he, Except.bind]
  by_cases hu : unk ∈ src
  · refine ⟨.duplicateUnk unk, ?_, hu, by simp [VocabError.token]⟩
    simp [Vocab.make, Vocab.load, hb, he, hu, Except.bind]
  by_cases hp : pad ∈ src
  · refine ⟨.duplicatePad pad, ?_, hp, by simp [VocabError.token]⟩
    simp [Vocab.make, Vocab.load, hb, he, hu, hp, Except.bind]
  · tauto

/-- Witness for C3: a listing containing the default `"<BOS>"`. -/
theorem claim_duplicate_special_rejected_witness :
    (("<PAD>" : String) ∈ ["the", "<BOS>"] ∨
     ("<BOS>" : String) ∈ ["the", "<BOS>"] ∨
     ("<EOS>" : String) ∈ ["the", "<BOS>"] ∨
     ("<UNK>" : String) ∈ ["the", "<BOS>"]) ∧
    (∃ e : VocabError,
      Vocab.make ["the", "<BOS>"] "<PAD>" "<BOS>" "<EOS>" "<UNK>" =
        .error e ∧
      e.token ∈ ["the", "<BOS>"] ∧
      e.token ∈ ["<PAD>", "<BOS>", "<EOS>", "<UNK>"]) :=
  ⟨by decide,
   claim_duplicate_special_rejected ["the", "<BOS>"] "<PAD>" "<BOS>" "<EOS>"
     "<UNK>" (by decide)⟩

/-- C4: `tokens_to_ids` is total over strings: for every built table
and every string `s` that is neither a loaded line nor one of the four
special tokens, the lookup returns the Unknown id (`unk_token_id`) and
never raises. -/
theorem claim_unknown_token_fallback (src : List String)
    (pad bos eos unk : String) (v : Vocab) (s : String)
    (hmk : Vocab.make src pad bos eos unk = .ok v)
    (hs1 : s ∉ src) (hs2 : s ∉ [pad, bos, eos, unk]) :
    v.map_tokens_to_ids_py (.leaf s) = .leaf v.unk_token_id := by
  obtain ⟨⟨hb, he, hu, hp⟩, rfl⟩ :=
    (Vocab.make_ok_iff src pad bos eos unk v).mp hmk
  rw [Vocab.map_tokens_to_ids_py, dict_lookup_leaf]
  congr 1
  have hs : s ∉ [pad, bos, eos, unk] ++ src := by
    intro hmem
    rcases List.mem_append.mp hmem with hmem2 | hmem2
    · exact hs2 hmem2
    · exact hs1 hmem2
  exact tokenMap_dictGet_miss ([pad, bos, eos, unk] ++ src) _ s hs

/-- Witness for C4: looking up `"fish"` in the table built from
`["cat", "dog"]`. -/
theorem claim_unknown_token_fallback_witness :
    (("fish" : String) ∉ (["cat", "dog"] : List String) ∧
     ("fish" : String) ∉ (["<PAD>", "<BOS>", "<EOS>", "<UNK>"] :
        List String)) ∧
    (builtVocab ["cat", "dog"] "<PAD>" "<BOS>" "<EOS>"
        "<UNK>").map_tokens_to_ids_py (.leaf "fish") =
      .leaf (builtVocab ["cat", "dog"] "<PAD>" "<BOS>" "<EOS>"
        "<UNK>").unk_token_id :=
  ⟨⟨by decide, by decide⟩,
   claim_unknown_token_fallback ["cat", "dog"] "<PAD>" "<BOS>" "<EOS>"
     "<UNK>" (builtVocab ["cat", "dog"] "<PAD>" "<BOS>" "<EOS>" "<UNK>")
     "fish"
     ((Vocab.make_ok_iff ["cat", "dog"] "<PAD>" "<BOS>" "<EOS>" "<UNK>"
        (builtVocab ["cat", "dog"] "<PAD>" "<BOS>" "<EOS>" "<UNK>")).mpr
       ⟨⟨by decide, by decide, by decide, by decide⟩, rfl⟩)
     (by decide) (by decide)⟩

/-- C5 counterexample: the claim "every id `i ≥ size` maps to the
Unknown token" fails on the table built from the duplicate listing
`["a", "a"]`: the table's size is 5, yet id 5 (≥ size) still maps to the
real token `"a"`, not the Unknown token. -/
theorem claim_out_of_size_id_counterexample :
    Vocab.make ["a", "a"] "<PAD>" "<BOS>" "<EOS>" "<UNK>" =
      .ok (builtVocab ["a", "a"] "<PAD>" "<BOS>" "<EOS>" "<UNK>") ∧
    (builtVocab ["a", "a"] "<PAD>" "<BOS>" "<EOS>" "<UNK>").size = 5 ∧
    ((builtVocab ["a", "a"] "<PAD>" "<BOS>" "<EOS>"
        "<UNK>").size : Int) ≤ 5 ∧
    (builtVocab ["a", "a"] "<PAD>" "<BOS>" "<EOS>"
        "<UNK>").map_ids_to_tokens_py (.leaf 5) ≠
      .leaf (builtVocab ["a", "a"] "<PAD>" "<BOS>" "<EOS>"
        "<UNK>").unk_token := by
  refine ⟨(Vocab.make_ok_iff ["a", "a"] "<PAD>" "<BOS>" "<EOS>" "<UNK>"
      (builtVocab ["a", "a"] "<PAD>" "<BOS>" "<EOS>" "<UNK>")).mpr
      ⟨⟨by decide, by decide, by decide, by decide⟩, rfl⟩,
    by decide, by decide, ?_⟩
  rw [Vocab.map_ids_to_tokens_py, dict_lookup_leaf]
  have hgd : (builtVocab ["a", "a"] "<PAD>" "<BOS>" "<EOS>"
      "<UNK>").id_to_token_map_py.getD 5
      (builtVocab ["a", "a"] "<PAD>" "<BOS>" "<EOS>" "<UNK>").unk_token =
      "a" := by decide
  rw [hgd]
  intro hcontra
  injection hcontra with hcontra2
  exact absurd hcontra2 (by decide)

/-- C5 amended: for every built table, every id `i < 0` or
`i ≥ 4 + number of source lines` (the length of the prepended sequence,
which bounds every stored key) maps to the Unknown token and the lookup
never raises; `size` only coincides with that bound when no source line
is duplicated. -/
theorem claim_out_of_range_ids_unknown (src : List String)
    (pad bos eos unk : String) (v : Vocab) (i : Int)
    (hmk : Vocab.make src pad bos eos unk = .ok v)
    (hrange : i < 0 ∨ (4 + (src.length : Int)) ≤ i) :
    v.map_ids_to_tokens_py (.leaf i) = .leaf v.unk_token := by
  obtain ⟨⟨hb, he, hu, hp⟩, rfl⟩ :=
    (Vocab.make_ok_iff src pad bos eos unk v).mp hmk
  rw [Vocab.map_ids_to_tokens_py, dict_lookup_leaf]
  congr 1
  have hlen := seq_length pad bos eos unk src
  exact idMap_dictGet_miss ([pad, bos, eos, unk] ++ src) _ i
    (by rw [hlen]; push_cast; omega)

/-- Witness for C5 amended: ids −1 and (via a second application site,
id 6 = 4 + 2) on the table built from `["cat", "dog"]`. -/
theorem claim_out_of_range_ids_unknown_witness :
    (((-1 : Int) < 0 ∨ (4 + ((["cat", "dog"] : List String).length : Int))
        ≤ -1) ∧
     (builtVocab ["cat", "dog"] "<PAD>" "<BOS>" "<EOS>"
        "<UNK>").map_ids_to_tokens_py (.leaf (-1)) =
      .leaf (builtVocab ["cat", "dog"] "<PAD>" "<BOS>" "<EOS>"
        "<UNK>").unk_token) ∧
    (builtVocab ["cat", "dog"] "<PAD>" "<BOS>" "<EOS>"
        "<UNK>").map_ids_to_tokens_py (.leaf 6) =
      .leaf (builtVocab ["cat", "dog"] "<PAD>" "<BOS>" "<EOS>"
        "<UNK>").unk_token :=
  ⟨⟨by decide,
    claim_out_of_range_ids_unknown ["cat", "dog"] "<PAD>" "<BOS>" "<EOS>"
      "<UNK>" (builtVocab ["cat", "dog"] "<PAD>" "<BOS>" "<EOS>" "<UNK>")
      (-1)
      ((Vocab.make_ok_iff ["cat", "dog"] "<PAD>" "<BOS>" "<EOS>" "<UNK>"
         (builtVocab ["cat", "dog"] "<PAD>" "<BOS>" "<EOS>" "<UNK>")).mpr
        ⟨⟨by decide, by decide, by decide, by decide⟩, rfl⟩)
      (by decide)⟩,
   claim_out_of_range_ids_unknown ["cat", "dog"] "<PAD>" "<BOS>" "<EOS>"
     "<UNK>" (builtVocab ["cat", "dog"] "<PAD>" "<BOS>" "<EOS>" "<UNK>") 6
     ((Vocab.make_ok_iff ["cat", "dog"] "<PAD>" "<BOS>" "<EOS>" "<UNK>"
        (builtVocab ["cat", "dog"] "<PAD>" "<BOS>" "<EOS>" "<UNK>")).mpr
       ⟨⟨by decide, by decide, by decide, by decide⟩, rfl⟩)
     (by decide)⟩

/-- C6 counterexample: the id-side round trip fails on the table
built from the duplicate listing `["a", "a"]`: id 4 is a valid id
(`4 < size = 5`), `ids_to_tokens(4) = "a"`, but `tokens_to_ids("a") = 5`
(last write wins), so the round trip returns 5, not 4. -/
theorem claim_roundtrip_bijection_counterexample :
    Vocab.make ["a", "a"] "<PAD>" "<BOS>" "<EOS>" "<UNK>" =
      .ok (builtVocab ["a", "a"] "<PAD>" "<BOS>" "<EOS>" "<UNK>") ∧
    4 < (builtVocab ["a", "a"] "<PAD>" "<BOS>" "<EOS>" "<UNK>").size ∧
    (builtVocab ["a", "a"] "<PAD>" "<BOS>" "<EOS>"
        "<UNK>").map_tokens_to_ids_py
      ((builtVocab ["a", "a"] "<PAD>" "<BOS>" "<EOS>"
        "<UNK>").map_ids_to_tokens_py (.leaf 4)) ≠ .leaf 4 := by
  refine ⟨(Vocab.make_ok_iff ["a", "a"] "<PAD>" "<BOS>" "<EOS>" "<UNK>"
      (builtVocab ["a", "a"] "<PAD>" "<BOS>" "<EOS>" "<UNK>")).mpr
      ⟨⟨by decide, by decide, by decide, by decide⟩, rfl⟩,
    by decide, ?_⟩
  have h1 : (builtVocab ["a", "a"] "<PAD>" "<BOS>" "<EOS>"
      "<UNK>").map_ids_to_tokens_py (.leaf 4) = .leaf "a" := by
    rw [Vocab.map_ids_to_tokens_py, dict_lookup_leaf]
    have hgd : (builtVocab ["a", "a"] "<PAD>" "<BOS>" "<EOS>"
        "<UNK>").id_to_token_map_py.getD 4
        (builtVocab ["a", "a"] "<PAD>" "<BOS>" "<EOS>" "<UNK>").unk_token =
        "a" := by decide
    rw [hgd]
  rw [h1, Vocab.map_tokens_to_ids_py, dict_lookup_leaf]
  have hgd2 : (builtVocab ["a", "a"] "<PAD>" "<BOS>" "<EOS>"
      "<UNK>").token_to_id_map_py.getD "a"
      (builtVocab ["a", "a"] "<PAD>" "<BOS>" "<EOS>"
        "<UNK>").unk_token_id = 5 := by decide
  rw [hgd2]
  intro hcontra
  injection hcontra with hcontra2
  exact absurd hcontra2 (by decide)

/-- C6 amended: the round-trip bijection holds for every built table
whose combined sequence (the four special tokens followed by the source
lines) contains no duplicate string: then for every token `t` in the
table `ids_to_tokens(tokens_to_ids(t)) = t`, and for every id
`i < size`, `tokens_to_ids(ids_to_tokens(i)) = i`.  (With duplicate
source lines the id-side round trip fails, see the counterexample.) -/
theorem claim_roundtrip_bijection_nodup (src : List String)
    (pad bos eos unk : String) (v : Vocab)
    (hmk : Vocab.make src pad bos eos unk = .ok v)
    (hnd : ([pad, bos, eos, unk] ++ src).Nodup) :
    (∀ t ∈ [pad, bos, eos, unk] ++ src,
        v.map_ids_to_tokens_py (v.map_tokens_to_ids_py (.leaf t)) =
          .leaf t) ∧
    (∀ i : Nat, i < v.size →
        v.map_tokens_to_ids_py (v.map_ids_to_tokens_py (.leaf (i : Int))) =
          .leaf (i : Int)) := by
  obtain ⟨⟨hb, he, hu, hp⟩, rfl⟩ :=
    (Vocab.make_ok_iff src pad bos eos unk v).mp hmk
  have hsize : (builtVocab src pad bos eos unk).size =
      ([pad, bos, eos, unk] ++ src).length := by
    rw [builtVocab_size, List.dedup_eq_self.mpr hnd]
  have hlastgen : ∀ i, (hi : i < ([pad, bos, eos, unk] ++ src).length) →
      ∀ j, (hj : j < ([pad, bos, eos, unk] ++ src).length) → i < j →
      ([pad, bos, eos, unk] ++ src)[j] ≠ ([pad, bos, eos, unk] ++ src)[i] := by
    intro i hi j hj hij
    simp only [ne_eq, List.Nodup.getElem_inj_iff hnd]
    omega
  constructor
  · intro t ht
    obtain ⟨i, hi, rfl⟩ := List.getElem_of_mem ht
    have h1 : (builtVocab src pad bos eos unk).map_tokens_to_ids_py
        (.leaf ([pad, bos, eos, unk] ++ src)[i]) = .leaf (i : Int) := by
      rw [Vocab.map_tokens_to_ids_py, dict_lookup_leaf]
      congr 1
      exact tokenMap_dictGet_last ([pad, bos, eos, unk] ++ src) _ i hi
        (hlastgen i hi)
    rw [h1, Vocab.map_ids_to_tokens_py, dict_lookup_leaf]
    congr 1
    exact idMap_dictGet_hit ([pad, bos, eos, unk] ++ src) _ i hi
  · intro i hisize
    rw [hsize] at hisize
    have h1 : (builtVocab src pad bos eos unk).map_ids_to_tokens_py
        (.leaf (i : Int)) = .leaf (([pad, bos, eos, unk] ++ src)[i]) := by
      rw [Vocab.map_ids_to_tokens_py, dict_lookup_leaf]
      congr 1
      exact idMap_dictGet_hit ([pad, bos, eos, unk] ++ src) _ i hisize
    rw [h1, Vocab.map_tokens_to_ids_py, dict_lookup_leaf]
    congr 1
    exact tokenMap_dictGet_last ([pad, bos, eos, unk] ++ src) _ i hisize
      (hlastgen i hisize)

/-- Witness for C6 amended: the duplicate-free listing `["cat", "dog"]`
with the default special tokens. -/
theorem claim_roundtrip_bijection_nodup_witness :
    ((["<PAD>", "<BOS>", "<EOS>", "<UNK>"] ++
        ["cat", "dog"]).Nodup) ∧
    ((∀ t ∈ ["<PAD>", "<BOS>", "<EOS>", "<UNK>"] ++ ["cat", "dog"],
        (builtVocab ["cat", "dog"] "<PAD>" "<BOS>" "<EOS>"
          "<UNK>").map_ids_to_tokens_py
          ((builtVocab ["cat", "dog"] "<PAD>" "<BOS>" "<EOS>"
            "<UNK>").map_tokens_to_ids_py (.leaf t)) = .leaf t) ∧
     (∀ i : Nat, i < (builtVocab ["cat", "dog"] "<PAD>" "<BOS>" "<EOS>"
          "<UNK>").size →
        (builtVocab ["cat", "dog"] "<PAD>" "<BOS>" "<EOS>"
          "<UNK>").map_tokens_to_ids_py
          ((builtVocab ["cat", "dog"] "<PAD>" "<BOS>" "<EOS>"
            "<UNK>").map_ids_to_tokens_py (.leaf (i : Int))) =
          .leaf (i : Int))) :=
  ⟨by decide,
   claim_roundtrip_bijection_nodup ["cat", "dog"] "<PAD>" "<BOS>" "<EOS>"
     "<UNK>" (builtVocab ["cat", "dog"] "<PAD>" "<BOS>" "<EOS>" "<UNK>")
     ((Vocab.make_ok_iff ["cat", "dog"] "<PAD>" "<BOS>" "<EOS>" "<UNK>"
        (builtVocab ["cat", "dog"] "<PAD>" "<BOS>" "<EOS>" "<UNK>")).mpr
       ⟨⟨by decide, by decide, by decide, by decide⟩, rfl⟩)
     (by decide)⟩

/-- C7: for every successfully built table (with pairwise-distinct
special tokens, as the data model requires), `size` equals 4 plus the
count of distinct loaded lines, and a duplicated line collapses to the
single id given by its last occurrence's position in the prepended
sequence. -/
theorem claim_size_accounting (src : List String)
    (pad bos eos unk : String) (v : Vocab)
    (hpb : pad ≠ bos) (hpe : pad ≠ eos) (hpu : pad ≠ unk)
    (hbe : bos ≠ eos) (hbu : bos ≠ unk) (heu : eos ≠ unk)
    (hmk : Vocab.make src pad bos eos unk = .ok v) :
    v.size = 4 + src.dedup.length ∧
    (∀ i, (hi : i < ([pad, bos, eos, unk] ++ src).length) →
      (∀ j, (hj : j < ([pad, bos, eos, unk] ++ src).length) → i < j →
        ([pad, bos, eos, unk] ++ src)[j] ≠
          ([pad, bos, eos, unk] ++ src)[i]) →
      v.token_to_id_map_py.getitem ([pad, bos, eos, unk] ++ src)[i] =
        (i : Int)) := by
  obtain ⟨⟨hb, he, hu, hp⟩, rfl⟩ :=
    (Vocab.make_ok_iff src pad bos eos unk v).mp hmk
  refine ⟨?_, ?_⟩
  · rw [builtVocab_size,
      dedup_length_seq src pad bos eos unk hpb hpe hpu hbe hbu heu
        hb he hu hp]
  · intro i hi hlast
    exact builtVocab_token_getitem_last src pad bos eos unk i hi hlast

/-- Witness for C7: the listing `["cat", "cat"]` has one distinct line,
so the size is 5, and `"cat"` collapses to id 5 (its last position). -/
theorem claim_size_accounting_witness :
    (("<PAD>" : String) ≠ "<BOS>" ∧ ("<PAD>" : String) ≠ "<EOS>" ∧
     ("<PAD>" : String) ≠ "<UNK>" ∧ ("<BOS>" : String) ≠ "<EOS>" ∧
     ("<BOS>" : String) ≠ "<UNK>" ∧ ("<EOS>" : String) ≠ "<UNK>") ∧
    ((builtVocab ["cat", "cat"] "<PAD>" "<BOS>" "<EOS>" "<UNK>").size =
        4 + (["cat", "cat"] : List String).dedup.length ∧
     (∀ i, (hi : i < (["<PAD>", "<BOS>", "<EOS>", "<UNK>"] ++
          ["cat", "cat"]).length) →
       (∀ j, (hj : j < (["<PAD>", "<BOS>", "<EOS>", "<UNK>"] ++
            ["cat", "cat"]).length) → i < j →
         (["<PAD>", "<BOS>", "<EOS>", "<UNK>"] ++ ["cat", "cat"])[j] ≠
           (["<PAD>", "<BOS>", "<EOS>", "<UNK>"] ++ ["cat", "cat"])[i]) →
       (builtVocab ["cat", "cat"] "<PAD>" "<BOS>" "<EOS>"
           "<UNK>").token_to_id_map_py.getitem
         (["<PAD>", "<BOS>", "<EOS>", "<UNK>"] ++ ["cat", "cat"])[i] =
         (i : Int))) :=
  ⟨⟨by decide, by decide, by decide, by decide, by decide, by decide⟩,
   claim_size_accounting ["cat", "cat"] "<PAD>" "<BOS>" "<EOS>" "<UNK>"
     (builtVocab ["cat", "cat"] "<PAD>" "<BOS>" "<EOS>" "<UNK>")
     (by decide) (by decide) (by decide) (by decide) (by decide) (by decide)
     ((Vocab.make_ok_iff ["cat", "cat"] "<PAD>" "<BOS>" "<EOS>" "<UNK>"
        (builtVocab ["cat", "cat"] "<PAD>" "<BOS>" "<EOS>" "<UNK>")).mpr
       ⟨⟨by decide, by decide, by decide, by decide⟩, rfl⟩)⟩

/-- C8: both lookup operations preserve the nesting shape of their
input exactly, each leaf being replaced by its mapped value (the Unknown
fallback on a miss); in particular
`tokens_to_ids([[a, b], [c]]) = [[id(a), id(b)], [id(c)]]`. -/
theorem claim_shape_preservation (v : Vocab) (x : Nested String)
    (y : Nested Int) (a b c : String) :
    (v.map_tokens_to_ids_py x).shape = x.shape ∧
    (v.map_ids_to_tokens_py y).shape = y.shape ∧
    v.map_tokens_to_ids_py
        (.node [.node [.leaf a, .leaf b], .node [.leaf c]]) =
      .node [.node [.leaf (v.token_to_id_map_py.getD a v.unk_token_id),
                    .leaf (v.token_to_id_map_py.getD b v.unk_token_id)],
             .node [.leaf (v.token_to_id_map_py.getD c v.unk_token_id)]] := by
  refine ⟨shape_dict_lookup _ _ x, shape_dict_lookup _ _ y, ?_⟩
  rw [Vocab.map_tokens_to_ids_py]
  rw [dict_lookup_node]
  simp only [List.map_cons, List.map_nil, dict_lookup_node,
    dict_lookup_leaf]

/-- C9 (implicit): the id→token map is built over the full prepended
sequence, duplicates included: every index `i < 4 + number of source
lines` maps back to the token stored at position `i` of that sequence (a
real token, not the Unknown fallback), even when duplicates make `size`
strictly smaller than the sequence length. -/
theorem claim_id_map_covers_prepended (src : List String)
    (pad bos eos unk : String) (v : Vocab) (i : Nat)
    (hmk : Vocab.make src pad bos eos unk = .ok v)
    (hi : i < 4 + src.length) :
    ∃ hb2 : i < ([pad, bos, eos, unk] ++ src).length,
      v.map_ids_to_tokens_py (.leaf (i : Int)) =
        .leaf ([pad, bos, eos, unk] ++ src)[i] := by
  obtain ⟨⟨hb, he, hu, hp⟩, rfl⟩ :=
    (Vocab.make_ok_iff src pad bos eos unk v).mp hmk
  have hlen := seq_length pad bos eos unk src
  have hb2 : i < ([pad, bos, eos, unk] ++ src).length := by omega
  refine ⟨hb2, ?_⟩
  rw [Vocab.map_ids_to_tokens_py, dict_lookup_leaf]
  congr 1
  exact idMap_dictGet_hit ([pad, bos, eos, unk] ++ src) _ i hb2

/-- Witness for C9: on the duplicate listing `["a", "a"]` the size is 5
but id 5 (= 4 + 1, the position of the second `"a"`) still returns the
stored token. -/
theorem claim_id_map_covers_prepended_witness :
    (5 < 4 + (["a", "a"] : List String).length) ∧
    (∃ hb2 : 5 < (["<PAD>", "<BOS>", "<EOS>", "<UNK>"] ++
        ["a", "a"]).length,
      (builtVocab ["a", "a"] "<PAD>" "<BOS>" "<EOS>"
          "<UNK>").map_ids_to_tokens_py (.leaf ((5 : Nat) : Int)) =
        .leaf (["<PAD>", "<BOS>", "<EOS>", "<UNK>"] ++ ["a", "a"])[5]) :=
  ⟨by decide,
   claim_id_map_covers_prepended ["a", "a"] "<PAD>" "<BOS>" "<EOS>"
     "<UNK>" (builtVocab ["a", "a"] "<PAD>" "<BOS>" "<EOS>" "<UNK>") 5
     ((Vocab.make_ok_iff ["a", "a"] "<PAD>" "<BOS>" "<EOS>" "<UNK>"
        (builtVocab ["a", "a"] "<PAD>" "<BOS>" "<EOS>" "<UNK>")).mpr
       ⟨⟨by decide, by decide, by decide, by decide⟩, rfl⟩)
     (by decide)⟩

/-- C10 (implicit): construction never checks the four special-token
strings against one another — with `pad_token = unk_token = "<UNK>"` and
an empty listing it succeeds, and `pad_token_id` is 3 (the unknown slot,
last write wins), not 0. -/
theorem claim_no_distinctness_validation :
    Vocab.make [] "<UNK>" "<BOS>" "<EOS>" "<UNK>" =
      .ok (builtVocab [] "<UNK>" "<BOS>" "<EOS>" "<UNK>") ∧
    (builtVocab [] "<UNK>" "<BOS>" "<EOS>" "<UNK>").pad_token =
      (builtVocab [] "<UNK>" "<BOS>" "<EOS>" "<UNK>").unk_token ∧
    (builtVocab [] "<UNK>" "<BOS>" "<EOS>" "<UNK>").pad_token_id = 3 ∧
    (builtVocab [] "<UNK>" "<BOS>" "<EOS>" "<UNK>").pad_token_id ≠ 0 :=
  ⟨(Vocab.make_ok_iff [] "<UNK>" "<BOS>" "<EOS>" "<UNK>"
      (builtVocab [] "<UNK>" "<BOS>" "<EOS>" "<UNK>")).mpr
     ⟨⟨by decide, by decide, by decide, by decide⟩, rfl⟩,
   by decide, by decide, by decide⟩

end TexarVocab

